import Mathlib

/-!
Verification of the Hugo build/watch/render core against its specification.

The development shallowly embeds the relevant Go functions of the repository:

* `commands/hugo.go` — `fullBuild`, the watch-loop batch handler inside
  `newWatcher`, and `pickOneWriteOrCreatePath`;
* the page-rendering file (`pageRenderer`, `renderPaginator`, `renderRSS`);
* the page file (`TargetPath`, `analyzePage`, `ReadFrom`).

Go machine integers only occur here as non-negative counts and as the
`fsnotify` operation bitmask, so they are embedded as `Nat` (the one
configuration integer that may be negative, `rssLimit`, is an `Int`).
Stateful loops become explicit recursion; goroutine interleavings become
explicit schedule parameters.  Helpers whose sources are not part of the
repository snapshot (e.g. `path.Clean`, `replaceExtension`) are either
translated from the Go standard library or modelled from the specification,
as noted in their doc comments.
-/

namespace GoPath

/-- Go `strings.HasPrefix`, computed on the character lists so that every
use reduces definitionally. -/
def goStartsWith (s pre : String) : Bool :=
  pre.data.isPrefixOf s.data

/-- Go `strings.HasSuffix`, computed on the character lists. -/
def goEndsWith (s post : String) : Bool :=
  post.data.reverse.isPrefixOf s.data.reverse

/-- The ASCII white-space test of Go `unicode.IsSpace` (the non-ASCII
space code points do not occur in the inputs considered here). -/
def isSpaceChar (c : Char) : Bool :=
  c = ' ' || c = '\t' || c = '\n' || c = '\r' || c = '\x0b' || c = '\x0c'

/-- Go `strings.TrimSpace`, computed on the character lists. -/
def goTrim (s : String) : String :=
  String.mk (((s.data.dropWhile isSpaceChar).reverse.dropWhile isSpaceChar).reverse)

/-- Split a character list at every occurrence of `c` (the separators are
dropped; `n+1` parts for `n` separators, as Go `strings.Split`). -/
def splitOnChar (c : Char) : List Char → List (List Char)
  | [] => [[]]
  | x :: xs =>
    let r := splitOnChar c xs
    if x = c then [] :: r
    else match r with
      | [] => [[x]]
      | h :: t => (x :: h) :: t

/-- One step of Go `path.Clean`'s element processing: empty and `.` elements
are dropped, `..` pops the last kept element (or is kept itself when the path
is relative and nothing can be popped; dropped at the root), other elements
are pushed.  The accumulator `stk` holds kept elements in reverse order. -/
def cleanComponents (rooted : Bool) : List String → List String → List String
  | [], stk => stk.reverse
  | c :: cs, stk =>
    if c = "" || c = "." then cleanComponents rooted cs stk
    else if c = ".." then
      match stk with
      | [] => if rooted then cleanComponents rooted cs [] else cleanComponents rooted cs [".."]
      | top :: rest =>
        if top = ".." then cleanComponents rooted cs (".." :: top :: rest)
        else cleanComponents rooted cs rest
    else cleanComponents rooted cs (c :: stk)

/-- Go `path.Clean` for slash-separated paths. -/
def pathClean (p : String) : String :=
  if p = "" then "."
  else
    let rooted := goStartsWith p "/"
    let comps := cleanComponents rooted ((splitOnChar '/' p.data).map String.mk) []
    if comps = [] then (if rooted then "/" else ".")
    else (if rooted then "/" else "") ++ String.intercalate "/" comps

/-- Go `path.Join` (also `filepath.Join` on Unix): drop leading empty
elements, join the rest with `/` and clean the result; all-empty input
yields the empty string. -/
def pathJoin (elems : List String) : String :=
  match elems.dropWhile (fun e => e = "") with
  | [] => ""
  | rest => pathClean (String.intercalate "/" rest)

/-- The final slash-separated element of a path, as returned as the second
component of Go `path.Split` / `filepath.Split` (empty for a path ending in
a slash). -/
def splitBase (s : String) : String :=
  String.mk (s.data.reverse.takeWhile (fun c => c ≠ '/')).reverse

/-- The directory part of Go `filepath.Split`: everything up to and
including the final slash. -/
def splitDir (s : String) : String :=
  String.mk (s.data.reverse.dropWhile (fun c => c ≠ '/')).reverse

/-- Go `filepath.Base` (Unix): `"."` for the empty path, trailing slashes
stripped, then the last element; `"/"` when the path is all slashes. -/
def fileBase (s : String) : String :=
  if s = "" then "."
  else
    let stripped := s.data.reverse.dropWhile (fun c => c = '/')
    if stripped = [] then "/"
    else String.mk (stripped.takeWhile (fun c => c ≠ '/')).reverse

/-- Go `filepath.Ext`: the suffix of the final element starting at its last
dot, the empty string when the final element has no dot. -/
def fileExt (s : String) : String :=
  let tail := s.data.reverse.takeWhile (fun c => c ≠ '/')
  let afterDot := tail.takeWhile (fun c => c ≠ '.')
  if afterDot.length = tail.length then ""
  else String.mk ((afterDot ++ ['.']).reverse)

end GoPath

namespace PageStats

/-- The raw-statistics fields of `PageMeta` filled in by `analyzePage`. -/
structure PageMeta where
  WordCount : Nat
  FuzzyWordCount : Nat
  ReadingTime : Nat
deriving DecidableEq, Repr

/-- `(*Page).analyzePage` from the page file.  `TotalWords(p.Plain())` is a
non-negative word count whose implementation is outside the snapshot, so the
count is taken as the argument; the three assignments are translated
verbatim (Go `int` division on non-negative operands is `Nat` division). -/
def analyzePage (wordCount : Nat) : PageMeta :=
  { WordCount := wordCount
    FuzzyWordCount := ((wordCount + 100) / 100) * 100
    ReadingTime := (wordCount + 212) / 213 }

/-- `ReadFrom` from the page file: a zero-length name is an error;
otherwise the page is parsed (the parser is an external collaborator,
abstracted as always succeeding with the given word count) and
`analyzePage` runs on the result. -/
def ReadFrom (name : String) (wordCount : Nat) : Option PageMeta :=
  if name.utf8ByteSize = 0 then none else some (analyzePage wordCount)

end PageStats

namespace Watch

/-- A raw filesystem event as delivered by fsnotify: a path and an
operation bitmask (`Create = 1`, `Write = 2`, `Remove = 4`, `Rename = 8`,
`Chmod = 16`). -/
structure Ev where
  name : String
  op : Nat
deriving DecidableEq, Repr

/-- The Write-or-Create test from `pickOneWriteOrCreatePath`:
`ev.Op&Write == Write || ev.Op&Create == Create`. -/
def isWriteOrCreate (ev : Ev) : Bool :=
  ev.op &&& 2 == 2 || ev.op &&& 1 == 1

/-- The accumulator loop of `pickOneWriteOrCreatePath`: a qualifying event
replaces the current pick only when its name is strictly longer (Go `len`
counts bytes). -/
def pickGo : List Ev → String → String
  | [], name => name
  | ev :: rest, name =>
    if isWriteOrCreate ev && ev.name.utf8ByteSize > name.utf8ByteSize
    then pickGo rest ev.name
    else pickGo rest name

/-- `pickOneWriteOrCreatePath` from `commands/hugo.go`. -/
def pickOneWriteOrCreatePath (events : List Ev) : String :=
  pickGo events ""

end Watch

namespace Watch

/-- The earliest string of maximal byte length in a list (empty string for
the empty list): a later string wins only when strictly longer. -/
def firstLongest : List String → String
  | [] => ""
  | s :: r =>
    let t := firstLongest r
    if t.utf8ByteSize > s.utf8ByteSize then t else s

/-- The claimed behaviour of `pickOneWriteOrCreatePath`: the name of the
earliest qualifying (Write/Create) event of maximal byte length, and the
empty string when no event qualifies. -/
def pickSpecification (events : List Ev) : String :=
  firstLongest ((events.filter isWriteOrCreate).map Ev.name)

/-- The string-level residue of the pick loop, after dropping the
non-qualifying events. -/
def strFold : List String → String → String
  | [], acc => acc
  | s :: rest, acc =>
    if s.utf8ByteSize > acc.utf8ByteSize then strFold rest s else strFold rest acc

theorem pickGo_eq_strFold (l : List Ev) :
    ∀ acc, pickGo l acc = strFold ((l.filter isWriteOrCreate).map Ev.name) acc := by
  induction l with
  | nil => intro acc; rfl
  | cons ev rest ih =>
    intro acc
    by_cases h : isWriteOrCreate ev
    · simp [pickGo, strFold, h, List.filter_cons, ih]
    · simp only [Bool.not_eq_true] at h
      simp [pickGo, strFold, h, List.filter_cons, ih]

theorem strFold_eq_firstLongest (l : List String) :
    ∀ acc, strFold l acc =
      if acc.utf8ByteSize < (firstLongest l).utf8ByteSize then firstLongest l else acc := by
  induction l with
  | nil =>
    intro acc
    have h0 : ("" : String).utf8ByteSize = 0 := rfl
    simp only [strFold, firstLongest]
    rw [if_neg (by omega)]
  | cons s r ih =>
    intro acc
    have hfl : firstLongest (s :: r)
        = if (firstLongest r).utf8ByteSize > s.utf8ByteSize then firstLongest r else s := rfl
    simp only [strFold, hfl, gt_iff_lt]
    by_cases h2 : s.utf8ByteSize < (firstLongest r).utf8ByteSize
    · rw [if_pos h2]
      by_cases h1 : acc.utf8ByteSize < s.utf8ByteSize
      · rw [if_pos h1, ih s, if_pos h2, if_pos (by omega)]
      · rw [if_neg h1, ih acc]
    · rw [if_neg h2]
      by_cases h1 : acc.utf8ByteSize < s.utf8ByteSize
      · rw [if_pos h1, ih s, if_neg h2, if_pos h1]
      · rw [if_neg h1, ih acc, if_neg (by omega), if_neg (by omega)]

theorem utf8ByteSize_eq_zero (s : String) (h : s.utf8ByteSize = 0) : s = "" := by
  cases s with
  | mk data =>
    cases data with
    | nil => rfl
    | cons c cs =>
      exfalso
      simp [String.utf8ByteSize, String.utf8ByteSize.go] at h
      have := Char.utf8Size_pos c
      omega

/-- C9: `pickOneWriteOrCreatePath` returns the empty string when no event
has the Write or Create bit set, and otherwise the name of the earliest
qualifying event of maximal (byte) name length — ties at the maximum are
resolved to the first occurrence because the comparison is
strictly-greater.  The navigate-to-changed target is therefore a
deterministic function of the batch sequence. -/
theorem pickOneWriteOrCreatePath_deterministic (events : List Ev) :
    pickOneWriteOrCreatePath events = pickSpecification events := by
  unfold pickOneWriteOrCreatePath pickSpecification
  rw [pickGo_eq_strFold, strFold_eq_firstLongest]
  by_cases h : ("".utf8ByteSize) <
      (firstLongest ((events.filter isWriteOrCreate).map Ev.name)).utf8ByteSize
  · rw [if_pos h]
  · rw [if_neg h]
    have h0 : ("" : String).utf8ByteSize = 0 := rfl
    have hz : (firstLongest ((events.filter isWriteOrCreate).map Ev.name)).utf8ByteSize = 0 := by
      omega
    exact (utf8ByteSize_eq_zero _ hz).symm

end Watch

namespace PageStats

/-- C10: after `analyzePage` runs (as it does for every page successfully
constructed by `ReadFrom`), `FuzzyWordCount` equals
`(WordCount/100)*100 + 100` under integer division — a positive multiple of
100, strictly greater than `WordCount` and at most `WordCount + 100` — and
`ReadingTime` is the ceiling of `WordCount/213` (characterized by
`WordCount ≤ 213*ReadingTime < WordCount + 213`, which gives `0` for an
empty page). -/
theorem analyzePage_stats (name : String) (wordCount : Nat) (m : PageMeta)
    (h : ReadFrom name wordCount = some m) :
    m.FuzzyWordCount = (m.WordCount / 100) * 100 + 100 ∧
    0 < m.FuzzyWordCount ∧
    m.FuzzyWordCount % 100 = 0 ∧
    m.WordCount < m.FuzzyWordCount ∧
    m.FuzzyWordCount ≤ m.WordCount + 100 ∧
    m.WordCount ≤ 213 * m.ReadingTime ∧
    213 * m.ReadingTime < m.WordCount + 213 ∧
    m.ReadingTime = (m.WordCount + 212) / 213 := by
  unfold ReadFrom at h
  split at h
  · exact absurd h (by simp)
  · cases h
    dsimp only [analyzePage]
    refine ⟨?_, ?_, ?_, ?_, ?_, ?_, ?_, ?_⟩ <;> omega

theorem analyzePage_stats_evaluated :
    ReadFrom "post.md" 250 = some (analyzePage 250) ∧
    (analyzePage 250).FuzzyWordCount = ((analyzePage 250).WordCount / 100) * 100 + 100 ∧
    (analyzePage 250).FuzzyWordCount = 300 ∧
    (analyzePage 250).ReadingTime = 2 :=
  ⟨by decide, (analyzePage_stats "post.md" 250 (analyzePage 250) (by decide)).1,
    by decide, by decide⟩

end PageStats

namespace Watch

/-- The environment of one iteration of the watch loop in `newWatcher`
(`commands/hugo.go`): the registered config files, the symbolic-link
mapping table (`Hugo.ContentChanges.GetSymbolicLinkMappings`), the
static-root test (`staticSyncer.isStatic`), the stat/walk oracle used when
a created directory is registered, the relevant configuration flags, and
the outcomes of the two external sync collaborators. -/
structure WCfg where
  configSet : List String
  mappings : String → List String
  isStatic : String → Bool
  isDirCreate : String → Bool
  walkEntries : String → List (String × Bool)
  buildWatch : Bool
  disableLiveReload : Bool
  forceSyncStatic : Bool
  navigateToChanged : Bool
  staticRel : String → String
  syncErr : Bool
  copyStaticErr : Bool
  contentPage : String → Option (String × Nat)

/-- The observable actions of one watch cycle, in program order. -/
inductive Action
  | debounceFullRebuild
  | fullRebuild
  | addWatch (path : String)
  | copyStaticAll
  | stopFatal
  | syncStatic (evs : List Ev)
  | refreshPath (p : String)
  | forceRefresh
  | rebuildSites (evs : List Ev)
  | navigateTo (link : String) (port : Nat)
deriving DecidableEq, Repr

/-- The temp-file noise filter of the watch loop, verbatim from the
`istemp` expression (`filepath.Ext`/`filepath.Base` as in Go). -/
def isTempName (name : String) : Bool :=
  let ext := GoPath.fileExt name
  let baseName := GoPath.fileBase name
  GoPath.goEndsWith ext "~" ||
  ext == ".swp" ||
  ext == ".swx" ||
  ext == ".tmp" ||
  ext == ".DS_Store" ||
  baseName == "4913" ||
  GoPath.goStartsWith ext ".goutputstream" ||
  GoPath.goEndsWith ext "jb_old___" ||
  GoPath.goEndsWith ext "jb_tmp___" ||
  GoPath.goEndsWith ext "jb_bak___" ||
  GoPath.goStartsWith ext ".sb-" ||
  GoPath.goStartsWith baseName ".#" ||
  GoPath.goStartsWith baseName "#"

/-- An event on a registered config path whose operation does not carry the
Chmod bit: exactly the condition under which the watch loop calls
`c.fullRebuild()` and breaks out of the filtering pass. -/
def isConfigTrigger (cfg : WCfg) (ev : Ev) : Bool :=
  cfg.configSet.contains ev.name && ev.op &&& 16 == 0

/-- Symbolic-link rewriting for one non-config event: a file-level mapping
expands the event into one event per mapped target; otherwise a mapping of
the containing directory expands it with the file name re-joined; otherwise
the event passes through unchanged. -/
def symlinkExpand (cfg : WCfg) (ev : Ev) : List Ev :=
  let contentMapped := cfg.mappings ev.name
  if contentMapped ≠ [] then contentMapped.map (fun m => { name := m, op := ev.op })
  else
    let dir := GoPath.splitDir ev.name
    let nm := GoPath.splitBase ev.name
    let dirMapped := cfg.mappings dir
    if dirMapped = [] then [ev]
    else dirMapped.map (fun m => { name := GoPath.pathJoin [m, nm], op := ev.op })

/-- The first (filtering) pass over the batch: config events with the Chmod
bit are dropped, the first config event without it invokes the full rebuild
and breaks the loop, every other event is symlink-rewritten into the
`filtered` accumulator. Returns whether the full rebuild fired together
with the events accumulated so far. -/
def filterLoop (cfg : WCfg) : List Ev → List Ev → Bool × List Ev
  | [], acc => (false, acc)
  | ev :: rest, acc =>
    if cfg.configSet.contains ev.name then
      if ev.op &&& 16 ≠ 0 then filterLoop cfg rest acc
      else (true, acc)
    else filterLoop cfg rest (acc ++ symlinkExpand cfg ev)

/-- The filtering pass restricted to a trigger-free prefix: config events
(necessarily Chmod-flagged there) are dropped, the rest symlink-rewritten. -/
def preExpand (cfg : WCfg) : List Ev → List Ev
  | [] => []
  | ev :: rest =>
    (if cfg.configSet.contains ev.name then [] else symlinkExpand cfg ev) ++ preExpand cfg rest

/-- Classification of one filtered event: temp names, empty names and
Chmod-only operations are discarded; a Create on a directory walks it,
adding directories to the watch set and non-static files as synthetic
dynamic Create events; finally the event itself goes to the static or the
dynamic sequence. Returns (actions, static events, dynamic events). -/
def classifyOne (cfg : WCfg) (ev : Ev) : List Action × List Ev × List Ev :=
  if isTempName ev.name then ([], [], [])
  else if ev.name == "" then ([], [], [])
  else if ev.op &&& 19 == 16 then ([], [], [])
  else
    let walk := if ev.op &&& 1 == 1 && cfg.isDirCreate ev.name then cfg.walkEntries ev.name else []
    let acts := walk.filterMap (fun e => if e.2 then some (Action.addWatch e.1) else none)
    let walkDyns := walk.filterMap
      (fun e => if !e.2 && !cfg.isStatic e.1 then some ({ name := e.1, op := 1 } : Ev) else none)
    if cfg.isStatic ev.name then (acts, [ev], walkDyns)
    else (acts, [], walkDyns ++ [ev])

/-- Classification of the whole filtered batch, concatenating in order. -/
def classifyAll (cfg : WCfg) : List Ev → List Action × List Ev × List Ev
  | [] => ([], [], [])
  | ev :: rest =>
    let h := classifyOne cfg ev
    let t := classifyAll cfg rest
    (h.1 ++ t.1, h.2.1 ++ t.2.1, h.2.2 ++ t.2.2)

/-- Is live reload active for this cycle
(`!c.h.buildWatch && !c.Cfg.GetBool("disableLiveReload")`). -/
def liveReloadOn (cfg : WCfg) : Bool :=
  !cfg.buildWatch && !cfg.disableLiveReload

/-- The sync step of the static block: with `forceSyncStatic` all static
files are re-copied (a failure is fatal, `utils.StopOnErr`); otherwise the
changed files are synced (a failure logs and `continue`s the loop).
Returns the emitted actions and whether the cycle goes on. -/
def staticSyncActs (cfg : WCfg) (statics : List Ev) : List Action × Bool :=
  if cfg.forceSyncStatic then
    if cfg.copyStaticErr then ([Action.copyStaticAll, Action.stopFatal], false)
    else ([Action.copyStaticAll], true)
  else
    if cfg.syncErr then ([Action.syncStatic statics], false)
    else ([Action.syncStatic statics], true)

/-- The live-reload emission after a successful static sync, verbatim from
the code: one `RefreshPath` per static event when the list is non-empty,
else a single `ForceRefresh` (the guard of the enclosing block makes the
latter branch unreachable). -/
def staticRefreshActs (cfg : WCfg) (statics : List Ev) : List Action :=
  if liveReloadOn cfg then
    if statics.length > 0 then
      statics.map (fun ev => Action.refreshPath (cfg.staticRel ev.name))
    else [Action.forceRefresh]
  else []

/-- The dynamic block: rebuild the site from the change set, then either
navigate to the one changed page or force-refresh, when live reload is on. -/
def dynamicBlockActs (cfg : WCfg) (dyns : List Ev) : List Action :=
  if dyns = [] then []
  else
    let onePageName := pickOneWriteOrCreatePath dyns
    Action.rebuildSites dyns ::
      (if liveReloadOn cfg then
        match (if cfg.navigateToChanged && onePageName != "" then cfg.contentPage onePageName
               else none) with
        | some pr => [Action.navigateTo pr.1 pr.2]
        | none => [Action.forceRefresh]
      else [])

/-- The static-then-dynamic stage of the watch cycle, after classification. -/
def staticStage (cfg : WCfg) (statics dyns : List Ev) : List Action :=
  if statics = [] then dynamicBlockActs cfg dyns
  else
    let sb := staticSyncActs cfg statics
    if sb.2 then sb.1 ++ staticRefreshActs cfg statics ++ dynamicBlockActs cfg dyns
    else sb.1

/-- The whole processing of one filtered batch. -/
def afterFilter (cfg : WCfg) (filtered : List Ev) : List Action :=
  let c := classifyAll cfg filtered
  c.1 ++ staticStage cfg c.2.1 c.2.2

/-- One full iteration of the watch loop on a batch of raw events
(`case evs := <-watcher.Events` in `newWatcher`): batches above the storm
threshold of 50 only debounce a full rebuild; otherwise the batch is
filtered (config detection and symlink rewriting) and then classified and
handled. -/
def processBatch (cfg : WCfg) (evs : List Ev) : List Action :=
  if evs.length > 50 then [Action.debounceFullRebuild]
  else
    let fl := filterLoop cfg evs []
    (if fl.1 then [Action.fullRebuild] else []) ++ afterFilter cfg fl.2

end Watch


namespace Watch

theorem filterLoop_of_trigger (cfg : WCfg) :
    ∀ (evs : List Ev) (acc : List Ev), (∃ e ∈ evs, isConfigTrigger cfg e = true) →
      filterLoop cfg evs acc
        = (true, acc ++ preExpand cfg (evs.takeWhile (fun e => !isConfigTrigger cfg e))) := by
  intro evs
  induction evs with
  | nil => intro acc h; simp at h
  | cons ev rest ih =>
    intro acc h
    by_cases ht : isConfigTrigger cfg ev = true
    · have h1 := ht
      unfold isConfigTrigger at h1
      have hc : cfg.configSet.contains ev.name = true := ((Bool.and_eq_true _ _).mp h1).1
      have hop : ev.op &&& 16 = 0 := by
        have h2 := ((Bool.and_eq_true _ _).mp h1).2
        simpa using h2
      have htw : List.takeWhile (fun e => !isConfigTrigger cfg e) (ev :: rest) = [] :=
        List.takeWhile_cons_of_neg (by simp [ht])
      rw [htw]
      simp only [filterLoop]
      rw [if_pos hc, if_neg (by omega)]
      simp [preExpand]
    · have ht' : isConfigTrigger cfg ev = false := by simpa using ht
      have hrest : ∃ e ∈ rest, isConfigTrigger cfg e = true := by
        obtain ⟨e, he, hee⟩ := h
        cases he with
        | head => exact absurd hee ht
        | tail _ hmem => exact ⟨e, hmem, hee⟩
      have htw : List.takeWhile (fun e => !isConfigTrigger cfg e) (ev :: rest)
          = ev :: List.takeWhile (fun e => !isConfigTrigger cfg e) rest :=
        List.takeWhile_cons_of_pos (by simp [ht'])
      rw [htw]
      cases hcon : cfg.configSet.contains ev.name with
      | true =>
        have hop : ev.op &&& 16 ≠ 0 := by
          intro h0
          apply ht
          simp only [isConfigTrigger, hcon, h0]
          simp
        simp only [filterLoop]
        rw [if_pos hcon, if_pos hop, ih acc hrest]
        simp only [preExpand]
        rw [if_pos hcon]
        simp
      | false =>
        simp only [filterLoop]
        rw [if_neg (by rw [hcon]; exact Bool.false_ne_true), ih _ hrest]
        simp only [preExpand]
        rw [if_neg (by rw [hcon]; exact Bool.false_ne_true)]
        simp [List.append_assoc]

theorem classifyOne_acts_are_addWatch (cfg : WCfg) (ev : Ev) :
    ∀ a ∈ (classifyOne cfg ev).1, ∃ p, a = Action.addWatch p := by
  intro a ha
  simp only [classifyOne] at ha
  split at ha
  · simp at ha
  · split at ha
    · simp at ha
    · split at ha
      · simp at ha
      · split at ha <;>
        · simp only [List.mem_filterMap] at ha
          obtain ⟨e, _, hfe⟩ := ha
          by_cases h2 : e.2 = true <;> simp [h2] at hfe
          exact ⟨e.1, hfe.symm⟩

theorem fullRebuild_not_mem_classifyActs (cfg : WCfg) :
    ∀ l, Action.fullRebuild ∉ (classifyAll cfg l).1 := by
  intro l
  induction l with
  | nil => simp [classifyAll]
  | cons ev rest ih =>
    simp only [classifyAll, List.mem_append]
    rintro (h | h)
    · obtain ⟨p, hp⟩ := classifyOne_acts_are_addWatch cfg ev _ h
      exact Action.noConfusion hp
    · exact ih h

theorem fullRebuild_not_mem_dynamicBlock (cfg : WCfg) (dyns : List Ev) :
    Action.fullRebuild ∉ dynamicBlockActs cfg dyns := by
  intro h
  simp only [dynamicBlockActs] at h
  split at h
  · simp at h
  · rcases List.mem_cons.mp h with h | h
    · exact Action.noConfusion h
    · split at h
      · split at h <;> simp at h
      · simp at h

theorem fullRebuild_not_mem_syncActs (cfg : WCfg) (statics : List Ev) :
    Action.fullRebuild ∉ (staticSyncActs cfg statics).1 := by
  intro h
  simp only [staticSyncActs] at h
  split at h <;> split at h <;> simp at h

theorem fullRebuild_not_mem_refreshActs (cfg : WCfg) (statics : List Ev) :
    Action.fullRebuild ∉ staticRefreshActs cfg statics := by
  intro h
  simp only [staticRefreshActs] at h
  split at h
  · split at h
    · simp only [List.mem_map] at h
      obtain ⟨e, _, he⟩ := h
      exact Action.noConfusion he
    · simp at h
  · simp at h

theorem fullRebuild_not_mem_staticStage (cfg : WCfg) (statics dyns : List Ev) :
    Action.fullRebuild ∉ staticStage cfg statics dyns := by
  intro h
  simp only [staticStage] at h
  split at h
  · exact fullRebuild_not_mem_dynamicBlock cfg dyns h
  · split at h
    · rcases List.mem_append.mp h with h | h
      · rcases List.mem_append.mp h with h | h
        · exact fullRebuild_not_mem_syncActs cfg statics h
        · exact fullRebuild_not_mem_refreshActs cfg statics h
      · exact fullRebuild_not_mem_dynamicBlock cfg dyns h
    · exact fullRebuild_not_mem_syncActs cfg statics h

theorem fullRebuild_not_mem_afterFilter (cfg : WCfg) (l : List Ev) :
    Action.fullRebuild ∉ afterFilter cfg l := by
  intro h
  simp only [afterFilter] at h
  rcases List.mem_append.mp h with h | h
  · exact fullRebuild_not_mem_classifyActs cfg l h
  · exact fullRebuild_not_mem_staticStage cfg _ _ h

end Watch

namespace Watch

/-- A concrete watch configuration with one registered config file, no
symlink mappings, no static roots, and live reload disabled. -/
def watchCfgA : WCfg :=
  { configSet := ["config.toml"]
    mappings := fun _ => []
    isStatic := fun _ => false
    isDirCreate := fun _ => false
    walkEntries := fun _ => []
    buildWatch := true
    disableLiveReload := true
    forceSyncStatic := false
    navigateToChanged := false
    staticRel := fun s => s
    syncErr := false
    copyStaticErr := false
    contentPage := fun _ => none }

/-- `watchCfgA` with live reload enabled. -/
def watchCfgB : WCfg :=
  { watchCfgA with buildWatch := false, disableLiveReload := false }

/-- A dynamic content change followed by a config-file change. -/
def dynThenConfigEvents : List Ev :=
  [{ name := "content/a.md", op := 2 }, { name := "config.toml", op := 2 }]

/-- C1, counterexample to the claim as stated: in a batch below the storm
threshold where a dynamic event precedes the config event, the full rebuild
fires, but the earlier dynamic event is still handled — a
rebuild-from-changeset call occurs for it, contradicting "none of the
batch's static or dynamic events are separately handled". -/
theorem configShortCircuit_counterexample :
    dynThenConfigEvents.length ≤ 50
    ∧ (∃ e ∈ dynThenConfigEvents, isConfigTrigger watchCfgA e = true)
    ∧ processBatch watchCfgA dynThenConfigEvents
        = [Action.fullRebuild, Action.rebuildSites [{ name := "content/a.md", op := 2 }]]
    ∧ Action.rebuildSites [{ name := "content/a.md", op := 2 }]
        ∈ processBatch watchCfgA dynThenConfigEvents := by
  refine ⟨by decide, by decide, by decide, by decide⟩

/-- C1 (amended): for a batch within the storm threshold containing a
config event with a non-Chmod operation, exactly one full rebuild from
config is invoked, the events at or after the first such config event are
dropped for this batch, and the events strictly before it are still
symlink-rewritten, classified and handled as usual. -/
theorem configShortCircuit_amended (cfg : WCfg) (evs : List Ev)
    (hlen : evs.length ≤ 50)
    (htrig : ∃ e ∈ evs, isConfigTrigger cfg e = true) :
    processBatch cfg evs
      = Action.fullRebuild ::
          afterFilter cfg (preExpand cfg (evs.takeWhile (fun e => !isConfigTrigger cfg e)))
    ∧ (processBatch cfg evs).count Action.fullRebuild = 1 := by
  have hproc : processBatch cfg evs
      = Action.fullRebuild ::
          afterFilter cfg (preExpand cfg (evs.takeWhile (fun e => !isConfigTrigger cfg e))) := by
    unfold processBatch
    rw [if_neg (by omega)]
    rw [filterLoop_of_trigger cfg evs [] htrig]
    simp
  refine ⟨hproc, ?_⟩
  rw [hproc, List.count_cons_self,
    List.count_eq_zero.mpr (fullRebuild_not_mem_afterFilter cfg _)]

theorem configShortCircuit_amended_witness :
    processBatch watchCfgA dynThenConfigEvents
      = Action.fullRebuild ::
          afterFilter watchCfgA
            (preExpand watchCfgA
              (dynThenConfigEvents.takeWhile (fun e => !isConfigTrigger watchCfgA e)))
    ∧ (processBatch watchCfgA dynThenConfigEvents).count Action.fullRebuild = 1 :=
  configShortCircuit_amended watchCfgA dynThenConfigEvents (by decide) (by decide)

/-- C3: a batch of more than 50 raw events only triggers the debouncer with
the full-rebuild action, exactly once; the trace is the single debounce
action, so no symlink rewriting, classification, static sync or dynamic
rebuild happens for any event of the batch. -/
theorem stormBatchSingleDebounce (cfg : WCfg) (evs : List Ev) (h : 50 < evs.length) :
    processBatch cfg evs = [Action.debounceFullRebuild] := by
  unfold processBatch
  rw [if_pos h]

/-- Sixty simultaneous create events. -/
def stormEvents : List Ev :=
  List.replicate 60 { name := "content/new.md", op := 1 }

theorem stormBatchSingleDebounce_witness :
    50 < stormEvents.length
    ∧ processBatch watchCfgA stormEvents = [Action.debounceFullRebuild] :=
  ⟨by decide, stormBatchSingleDebounce watchCfgA stormEvents (by decide)⟩

/-- C6, counterexample to the claim as stated: with live reload enabled and
an empty static-event list, the static block never runs, so no force
refresh is emitted at all (the claim predicts a single force-refresh). -/
theorem staticEmptyRefresh_counterexample :
    liveReloadOn watchCfgB = true
    ∧ processBatch watchCfgB [] = []
    ∧ Action.forceRefresh ∉ processBatch watchCfgB [] := by
  refine ⟨by decide, by decide, by decide⟩

/-- C6 (amended): for a batch whose static-event list is non-empty, whose
static resync succeeds and with live reload enabled, the watcher emits
exactly one path-specific refresh per changed static file (with the
destination-relative path); when the static-event list is empty the static
block is skipped entirely and no refresh is emitted for it — the single
force-refresh fallback in the code is unreachable. -/
theorem staticEventsRefreshPerPath (cfg : WCfg) (statics dyns : List Ev)
    (hl : liveReloadOn cfg = true) (hf : cfg.forceSyncStatic = false)
    (he : cfg.syncErr = false) :
    (statics ≠ [] → staticStage cfg statics dyns
        = Action.syncStatic statics
            :: (statics.map (fun ev => Action.refreshPath (cfg.staticRel ev.name))
                ++ dynamicBlockActs cfg dyns))
    ∧ (statics = [] → staticStage cfg statics dyns = dynamicBlockActs cfg dyns) := by
  constructor
  · intro hs
    have hlen : 0 < statics.length := List.length_pos.mpr hs
    simp [staticStage, staticSyncActs, staticRefreshActs, hs, hf, he, hl, hlen]
  · intro hs
    unfold staticStage
    rw [if_pos hs]

/-- One changed static file. -/
def oneStaticEvent : List Ev := [{ name := "static/css/site.css", op := 2 }]

theorem staticEventsRefreshPerPath_witness :
    (staticStage watchCfgB oneStaticEvent []
        = Action.syncStatic oneStaticEvent
            :: (oneStaticEvent.map (fun ev => Action.refreshPath (watchCfgB.staticRel ev.name))
                ++ dynamicBlockActs watchCfgB []))
    ∧ staticStage watchCfgB [] [] = dynamicBlockActs watchCfgB [] :=
  ⟨(staticEventsRefreshPerPath watchCfgB oneStaticEvent [] (by decide) (by decide)
      (by decide)).1 (by decide),
   (staticEventsRefreshPerPath watchCfgB [] [] (by decide) (by decide) (by decide)).2 rfl⟩

end Watch

namespace Build

/-- The inputs of one `fullBuild` run (`commands/hugo.go`): the
`cleanDestinationDir` flag, the outcome of `copyStatic` and of
`buildSites`, and the optional trailing garbage-collection pass. -/
structure FBCfg where
  cleanDestinationDir : Bool
  copyErr : Option String
  buildErr : Option String
  gcEnabled : Bool
  gcErr : Option String
deriving DecidableEq, Repr

/-- Observable phase events of a `fullBuild` run.  `copyEnd` marks the
completion of `copyStatic` including its delete pass (the deletion of
unmatched destination files happens at the end of the sync call). -/
inductive BEv
  | copyStart
  | copyEnd
  | buildStart
  | buildEnd
deriving DecidableEq, Repr

/-- The event stream of the static-copy task. -/
def taskCopy : List BEv := [BEv.copyStart, BEv.copyEnd]

/-- The event stream of the document-build task. -/
def taskBuild : List BEv := [BEv.buildStart, BEv.buildEnd]

/-- Interleave two task streams under a schedule (`true` steps the first
task); an exhausted schedule appends the remainders, so every run is a
complete interleaving of both tasks. -/
def interleave : List Bool → List BEv → List BEv → List BEv
  | [], xs, ys => xs ++ ys
  | b :: sch, xs, ys =>
    if b then
      match xs with
      | [] => ys
      | x :: xt => x :: interleave sch xt ys
    else
      match ys with
      | [] => xs
      | y :: yt => y :: interleave sch xs yt

/-- The error of the first task to complete with a failure, in trace
order — the error `errgroup.Group.Wait` reports. -/
def firstTaskError (tr : List BEv) (copyErr buildErr : Option String) : Option String :=
  tr.findSome? fun e =>
    match e with
    | BEv.copyEnd => copyErr
    | BEv.buildEnd => buildErr
    | _ => none

/-- The trailing statistics/GC phase of `fullBuild`, entered only when both
tasks succeeded: with `--gc`, a `Hugo.GC()` failure is returned. -/
def afterTasks (cfg : FBCfg) : Option String :=
  if cfg.gcEnabled then cfg.gcErr else none

/-- `(*commandeer).fullBuild`: with `cleanDestinationDir` the static copy
runs to completion before the site build starts (and a copy error aborts
before the build); otherwise both tasks run concurrently in an errgroup
under the given schedule and the first error of either task fails the
call.  Returns the phase trace and the error outcome. -/
def fullBuild (cfg : FBCfg) (sched : List Bool) : List BEv × Option String :=
  if cfg.cleanDestinationDir then
    match cfg.copyErr with
    | some e => ([BEv.copyStart, BEv.copyEnd], some e)
    | none =>
      match cfg.buildErr with
      | some e => ([BEv.copyStart, BEv.copyEnd, BEv.buildStart, BEv.buildEnd], some e)
      | none => ([BEv.copyStart, BEv.copyEnd, BEv.buildStart, BEv.buildEnd], afterTasks cfg)
  else
    let tr := interleave sched taskCopy taskBuild
    match firstTaskError tr cfg.copyErr cfg.buildErr with
    | some e => (tr, some e)
    | none => (tr, afterTasks cfg)

theorem copyEnd_mem_interleave : ∀ (sched : List Bool) (xs ys : List BEv) (a : BEv),
    a ∈ xs → a ∈ interleave sched xs ys := by
  intro sched
  induction sched with
  | nil => intro xs ys a h; exact List.mem_append_left ys h
  | cons b sch ih =>
    intro xs ys a h
    by_cases hb : b = true
    · subst hb
      cases xs with
      | nil => simp at h
      | cons x xt =>
        simp only [interleave, if_pos rfl]
        rcases List.mem_cons.mp h with h | h
        · exact h ▸ List.mem_cons_self _ _
        · exact List.mem_cons_of_mem _ (ih xt ys a h)
    · have hb' : b = false := by simpa using hb
      subst hb'
      cases ys with
      | nil => simpa [interleave] using h
      | cons y yt =>
        simp only [interleave, Bool.false_eq_true, if_false]
        exact List.mem_cons_of_mem _ (ih xs yt a h)

theorem buildEnd_mem_interleave : ∀ (sched : List Bool) (xs ys : List BEv) (a : BEv),
    a ∈ ys → a ∈ interleave sched xs ys := by
  intro sched
  induction sched with
  | nil => intro xs ys a h; exact List.mem_append_right xs h
  | cons b sch ih =>
    intro xs ys a h
    by_cases hb : b = true
    · subst hb
      cases xs with
      | nil => simpa [interleave] using h
      | cons x xt =>
        simp only [interleave, if_pos rfl]
        exact List.mem_cons_of_mem _ (ih xt ys a h)
    · have hb' : b = false := by simpa using hb
      subst hb'
      cases ys with
      | nil => simp at h
      | cons y yt =>
        simp only [interleave, Bool.false_eq_true, if_false]
        rcases List.mem_cons.mp h with h | h
        · exact h ▸ List.mem_cons_self _ _
        · exact List.mem_cons_of_mem _ (ih xs yt a h)

theorem findSome?_isSome_of_mem {α β : Type} (f : α → Option β) :
    ∀ (l : List α) (a : α), a ∈ l → (f a).isSome → (l.findSome? f).isSome := by
  intro l
  induction l with
  | nil => intro a h; simp at h
  | cons x xs ih =>
    intro a h hf
    rcases List.mem_cons.mp h with h | h
    · subst h
      simp only [List.findSome?]
      cases hfa : f a with
      | none => rw [hfa] at hf; simp at hf
      | some b => simp
    · simp only [List.findSome?]
      cases hfa : f x with
      | none => exact ih a h hf
      | some b => simp

end Build

namespace Build

/-- C2: with `cleanDestinationDir` enabled, `fullBuild`'s static-copy phase
runs and completes (its delete pass included) strictly before the
document-build phase starts — independently of the schedule, the trace is
`copyStart, copyEnd` followed by the build phase (absent when the copy
failed).  With the flag disabled, the two phases are interleaved by the
schedule as two concurrent tasks and the first error returned by either
task makes `fullBuild` fail. -/
theorem fullBuild_phase_ordering (cfg : FBCfg) (sched : List Bool) :
    (cfg.cleanDestinationDir = true →
      (fullBuild cfg sched).1
        = BEv.copyStart :: BEv.copyEnd ::
            (if cfg.copyErr = none then [BEv.buildStart, BEv.buildEnd] else []))
    ∧ (cfg.cleanDestinationDir = false →
        ((cfg.copyErr ≠ none ∨ cfg.buildErr ≠ none) → (fullBuild cfg sched).2 ≠ none)
        ∧ (∀ e, firstTaskError (interleave sched taskCopy taskBuild) cfg.copyErr cfg.buildErr
              = some e → (fullBuild cfg sched).2 = some e)
        ∧ (fullBuild cfg sched).1 = interleave sched taskCopy taskBuild) := by
  constructor
  · intro hclean
    unfold fullBuild
    rw [if_pos hclean]
    cases hc : cfg.copyErr with
    | some e => simp [hc]
    | none => cases hb : cfg.buildErr with
      | some e => simp [hc]
      | none => simp [hc]
  · intro hclean
    have hrun : fullBuild cfg sched
        = (interleave sched taskCopy taskBuild,
            match firstTaskError (interleave sched taskCopy taskBuild) cfg.copyErr cfg.buildErr
            with
            | some e => some e
            | none => afterTasks cfg) := by
      unfold fullBuild
      rw [if_neg (by simp [hclean])]
      cases hfe : firstTaskError (interleave sched taskCopy taskBuild) cfg.copyErr cfg.buildErr
        <;> simp [hfe]
    refine ⟨?_, ?_, ?_⟩
    · intro herr
      have hsome : (firstTaskError (interleave sched taskCopy taskBuild)
          cfg.copyErr cfg.buildErr).isSome := by
        rcases herr with herr | herr
        · refine findSome?_isSome_of_mem _ _ BEv.copyEnd ?_ ?_
          · exact copyEnd_mem_interleave sched taskCopy taskBuild BEv.copyEnd (by simp [taskCopy])
          · simpa [Option.isSome] using Option.ne_none_iff_isSome.mp herr
        · refine findSome?_isSome_of_mem _ _ BEv.buildEnd ?_ ?_
          · exact buildEnd_mem_interleave sched taskCopy taskBuild BEv.buildEnd
              (by simp [taskBuild])
          · simpa [Option.isSome] using Option.ne_none_iff_isSome.mp herr
      rw [hrun]
      obtain ⟨e, he⟩ := Option.isSome_iff_exists.mp hsome
      simp [firstTaskError] at he ⊢
      rw [he]
      simp
    · intro e he
      rw [hrun]
      simp only
      rw [he]
    · rw [hrun]

/-- Clean run: destination cleaning on, no errors. -/
def cleanRunCfg : FBCfg :=
  { cleanDestinationDir := true, copyErr := none, buildErr := none
    gcEnabled := false, gcErr := none }

/-- Concurrent run whose copy task fails. -/
def copyFailCfg : FBCfg :=
  { cleanDestinationDir := false, copyErr := some "copy failed", buildErr := none
    gcEnabled := false, gcErr := none }

theorem fullBuild_phase_ordering_witness :
    (fullBuild cleanRunCfg []).1
      = BEv.copyStart :: BEv.copyEnd ::
          (if cleanRunCfg.copyErr = none then [BEv.buildStart, BEv.buildEnd] else [])
    ∧ (fullBuild copyFailCfg [false, false]).2 ≠ none
    ∧ (fullBuild copyFailCfg [false, false]).1
        = [BEv.buildStart, BEv.buildEnd, BEv.copyStart, BEv.copyEnd] :=
  ⟨(fullBuild_phase_ordering cleanRunCfg []).1 rfl,
   ((fullBuild_phase_ordering copyFailCfg [false, false]).2 rfl).1 (Or.inl (by decide)),
   by decide⟩

end Build

namespace Render

/-- A constructed page output: the format it was built for and the
`createCopy` flag it was built with. -/
structure POut where
  format : String
  createCopy : Bool
deriving DecidableEq, Repr

/-- Modelled from the spec: `newPageOutput(page, createCopy, outFormat)` —
the page-output constructor is not part of the snapshot; the spec only
requires that each call independently constructs an output for the given
format, with `createCopy = true` for the non-first formats. -/
def newPageOutput (createCopy : Bool) (f : String) : POut :=
  { format := f, createCopy := createCopy }

/-- The shared per-page state touched by the guarded initializer in
`pageRenderer`: the `page.pageOutputInit` `sync.Once` flag and the memoized
`page.mainPageOutput`. -/
structure PState where
  onceDone : Bool
  mainOutput : Option POut
deriving DecidableEq, Repr

/-- The format loop of `pageRenderer`, sequentialized at the granularity of
the atomic `sync.Once.Do` call (the only step that touches shared state):
at index `0` the guarded initializer computes and memoizes the main output
only when the once has not fired, and the memoized output is used; at
every later index an independent output is constructed.  Returns the
updated shared state, the number of main-output computations performed,
and the per-format outputs. -/
def renderFormatsFrom (st : PState) (i : Nat) : List String → PState × Nat × List (Option POut)
  | [] => (st, 0, [])
  | f :: fs =>
    let step :=
      if i = 0 then
        if st.onceDone then (st, 0, st.mainOutput)
        else
          let po := newPageOutput false f
          ({ onceDone := true, mainOutput := some po }, 1, some po)
      else (st, 0, some (newPageOutput true f))
    let rest := renderFormatsFrom step.1 (i + 1) fs
    (rest.1, step.2.1 + rest.2.1, step.2.2 :: rest.2.2)

/-- One worker's pass over a page's output formats. -/
def renderPageFormats (st : PState) (formats : List String) : PState × Nat × List (Option POut) :=
  renderFormatsFrom st 0 formats

/-- `k` pipeline passes referencing the same page (concurrent workers are
equivalent to some sequential order of the atomic `Do` calls).  Returns the
final state and the total number of main-output computations. -/
def runWorkers (formats : List String) : Nat → PState → PState × Nat
  | 0, st => (st, 0)
  | k + 1, st =>
    let r := renderPageFormats st formats
    let rest := runWorkers formats k r.1
    (rest.1, r.2.1 + rest.2)

theorem renderFormatsFrom_pos (fs : List String) :
    ∀ (st : PState) (i : Nat), i ≠ 0 →
      renderFormatsFrom st i fs
        = (st, 0, fs.map (fun f => some (newPageOutput true f))) := by
  induction fs with
  | nil => intro st i _; simp [renderFormatsFrom]
  | cons f fs ih =>
    intro st i hi
    simp only [renderFormatsFrom, if_neg hi]
    rw [ih st (i + 1) (by omega)]
    simp

theorem renderFormatsFrom_done (fs : List String) :
    ∀ (st : PState) (i : Nat), st.onceDone = true →
      (renderFormatsFrom st i fs).1 = st ∧ (renderFormatsFrom st i fs).2.1 = 0 := by
  induction fs with
  | nil => intro st i _; simp [renderFormatsFrom]
  | cons f fs ih =>
    intro st i hdone
    by_cases hi : i = 0
    · subst hi
      simp only [renderFormatsFrom, if_pos rfl, if_pos hdone]
      have h := ih st 1 hdone
      simp [h.1, h.2]
    · simp only [renderFormatsFrom, if_neg hi]
      rw [renderFormatsFrom_pos fs st (i + 1) (by omega)]
      simp

theorem renderPageFormats_fresh (st : PState) (f : String) (fs : List String)
    (hst : st.onceDone = false) :
    renderPageFormats st (f :: fs)
      = ({ onceDone := true, mainOutput := some (newPageOutput false f) }, 1,
          some (newPageOutput false f) :: fs.map (fun g => some (newPageOutput true g))) := by
  unfold renderPageFormats
  have h1 : renderFormatsFrom { onceDone := true, mainOutput := some (newPageOutput false f) } 1 fs
      = ({ onceDone := true, mainOutput := some (newPageOutput false f) }, 0,
          fs.map (fun g => some (newPageOutput true g))) :=
    renderFormatsFrom_pos fs _ 1 (by omega)
  simp [renderFormatsFrom, hst, h1]

theorem runWorkers_done (fs : List String) :
    ∀ (k : Nat) (st : PState), st.onceDone = true →
      (runWorkers fs k st).1 = st ∧ (runWorkers fs k st).2 = 0 := by
  intro k
  induction k with
  | zero => intro st _; simp [runWorkers]
  | succ k ih =>
    intro st hdone
    have h1 := renderFormatsFrom_done fs st 0 hdone
    simp only [runWorkers, renderPageFormats]
    rw [h1.1, h1.2]
    have h2 := ih st hdone
    simp [h2.1, h2.2]

/-- C4: for every page, the main page output is computed and memoized
exactly once per build.  With any positive number of passes over a fresh
page, the total number of main-output computations is `1`, however many
output formats the page has; the guarded initializer only ever runs at
format index `0` (at every index `i ≠ 0` no main computation happens); and
one fresh pass memoizes the first format's output in the shared state while
every subsequent format gets an independently constructed page output
(`createCopy = true`). -/
theorem pageMainOutputOnce (formats : List String) (k : Nat) (st : PState)
    (hfs : formats ≠ []) (hst : st.onceDone = false) :
    (runWorkers formats (k + 1) st).2 = 1
    ∧ (∀ (st2 : PState) (i : Nat), i ≠ 0 → (renderFormatsFrom st2 i formats).2.1 = 0)
    ∧ ∀ f fs, formats = f :: fs →
        renderPageFormats st formats
          = ({ onceDone := true, mainOutput := some (newPageOutput false f) }, 1,
              some (newPageOutput false f) :: fs.map (fun g => some (newPageOutput true g))) := by
  obtain ⟨f, fs, rfl⟩ : ∃ f fs, formats = f :: fs := by
    cases formats with
    | nil => exact absurd rfl hfs
    | cons f fs => exact ⟨f, fs, rfl⟩
  refine ⟨?_, ?_, ?_⟩
  · simp only [runWorkers]
    rw [renderPageFormats_fresh st f fs hst]
    have h := runWorkers_done (f :: fs) k
      { onceDone := true, mainOutput := some (newPageOutput false f) } rfl
    simp [h.2]
  · intro st2 i hi
    rw [renderFormatsFrom_pos (f :: fs) st2 i hi]
  · intro g gs hg
    obtain ⟨rfl, rfl⟩ := List.cons_eq_cons.mp hg
    exact renderPageFormats_fresh st f fs hst

/-- A fresh page state. -/
def freshPage : PState := { onceDone := false, mainOutput := none }

theorem pageMainOutputOnce_witness :
    (runWorkers ["HTML", "RSS"] 2 freshPage).2 = 1
    ∧ renderPageFormats freshPage ["HTML", "RSS"]
        = ({ onceDone := true, mainOutput := some (newPageOutput false "HTML") }, 1,
            some (newPageOutput false "HTML")
              :: ["RSS"].map (fun g => some (newPageOutput true g))) :=
  ⟨(pageMainOutputOnce ["HTML", "RSS"] 1 freshPage (by decide) rfl).1,
   (pageMainOutputOnce ["HTML", "RSS"] 1 freshPage (by decide) rfl).2.2 "HTML" ["RSS"] rfl⟩

end Render

namespace Pag

/-- A sub-page of a pager: only its timestamp metadata matters here. -/
structure SubPage where
  date : Nat
  lastmod : Nat
deriving DecidableEq, Repr

/-- One pager (one page of the paginated listing): its ordered sub-pages. -/
structure Pager where
  subPages : List SubPage
deriving DecidableEq, Repr

/-- The page output handed to `renderPaginator`: the owning Document's own
target path, its permalink for this output format, its title, its own
timestamps, and the optional paginator. -/
structure PagOut where
  basePath : String
  permalink : String
  title : String
  date : Nat
  lastmod : Nat
  paginator : Option (List Pager)
deriving DecidableEq, Repr

/-- Modelled from the spec: `p.createTargetPath(p.outputFormat, addend)` /
`p.targetPath(addend)` (the target-path machinery is not part of the
snapshot) — a derived path is the Document's own target path with the
addend appended. -/
def createTargetPath (p : PagOut) (addend : String) : String :=
  p.basePath ++ addend

/-- The write actions of `renderPaginator`: the page-1 alias redirect and
one rendered artifact per later pager. -/
inductive PagAct
  | alias (target link : String)
  | renderPage (title target : String) (date lastmod : Nat)
deriving DecidableEq, Repr

/-- The pager loop of `renderPaginator`: pager `0` is skipped (already
rendered as the owning page), every later pager is rendered at the derived
path `/<paginatePath>/<pageNumber>` on a copy of the page output that
inherits the first sub-page's date and last-modified timestamps when the
pager has sub-pages (`pager.TotalPages() > 0`, modelled from the spec as
the pager's sub-page list being non-empty). -/
def renderPagersFrom (paginatePath : String) (p : PagOut) : Nat → List Pager → List PagAct
  | _, [] => []
  | i, pager :: rest =>
    if i = 0 then renderPagersFrom paginatePath p (i + 1) rest
    else
      let dl :=
        match pager.subPages with
        | [] => (p.date, p.lastmod)
        | first :: _ => (first.date, first.lastmod)
      PagAct.renderPage p.title
          (createTargetPath p ("/" ++ paginatePath ++ "/" ++ toString (i + 1))) dl.1 dl.2
        :: renderPagersFrom paginatePath p (i + 1) rest

/-- `(*Site).renderPaginator` from the rendering file: nothing without a
paginator; otherwise the alias for page 1 is written from the derived
`/<paginatePath>/1` path to the page's own permalink, then every pager
beyond the first is rendered. -/
def renderPaginator (paginatePath : String) (p : PagOut) : List PagAct :=
  match p.paginator with
  | none => []
  | some pagers =>
    PagAct.alias (createTargetPath p ("/" ++ paginatePath ++ "/1")) p.permalink
      :: renderPagersFrom paginatePath p 0 pagers

theorem renderPagersFrom_mem (paginatePath : String) (p : PagOut) :
    ∀ (pagers : List Pager) (i k : Nat) (hk : k < pagers.length),
      1 ≤ i + k →
      ∀ first rest, (pagers.get ⟨k, hk⟩).subPages = first :: rest →
        PagAct.renderPage p.title
            (createTargetPath p ("/" ++ paginatePath ++ "/" ++ toString (i + k + 1)))
            first.date first.lastmod
          ∈ renderPagersFrom paginatePath p i pagers := by
  intro pagers
  induction pagers with
  | nil => intro i k hk; simp at hk
  | cons pager rest ih =>
    intro i k hk hik first tail hsub
    cases k with
    | zero =>
      have hi : i ≠ 0 := by omega
      simp only [List.get] at hsub
      simp only [renderPagersFrom, if_neg hi, hsub]
      exact List.mem_cons_self _ _
    | succ k' =>
      have hmem := ih (i + 1) k' (by simpa using hk) (by omega) first tail
        (by simpa using hsub)
      by_cases hi : i = 0
      · subst hi
        simp only [renderPagersFrom, if_pos rfl]
        simpa [Nat.add_comm, Nat.add_assoc, Nat.add_left_comm] using hmem
      · simp only [renderPagersFrom, if_neg hi]
        refine List.mem_cons_of_mem _ ?_
        simpa [Nat.add_comm, Nat.add_assoc, Nat.add_left_comm] using hmem

theorem renderPagersFrom_shape (paginatePath : String) (p : PagOut) :
    ∀ (pagers : List Pager) (i : Nat) (a : PagAct),
      a ∈ renderPagersFrom paginatePath p i pagers →
      ∃ n t d lm, i + 1 ≤ n ∧ 2 ≤ n ∧
        a = PagAct.renderPage t
          (createTargetPath p ("/" ++ paginatePath ++ "/" ++ toString n)) d lm := by
  intro pagers
  induction pagers with
  | nil => intro i a h; simp [renderPagersFrom] at h
  | cons pager rest ih =>
    intro i a h
    by_cases hi : i = 0
    · subst hi
      simp only [renderPagersFrom, if_pos rfl] at h
      obtain ⟨n, t, d, lm, h1, h2, h3⟩ := ih 1 a h
      exact ⟨n, t, d, lm, by omega, h2, h3⟩
    · simp only [renderPagersFrom, if_neg hi] at h
      rcases List.mem_cons.mp h with h | h
      · exact ⟨i + 1, p.title, _, _, by omega, by omega, h⟩
      · obtain ⟨n, t, d, lm, h1, h2, h3⟩ := ih (i + 1) a h
        exact ⟨n, t, d, lm, by omega, h2, h3⟩

end Pag

namespace Pag

theorem renderPagersFrom_mem_any (paginatePath : String) (p : PagOut) :
    ∀ (pagers : List Pager) (i k : Nat), k < pagers.length → 1 ≤ i + k →
      ∃ d lm, PagAct.renderPage p.title
          (createTargetPath p ("/" ++ paginatePath ++ "/" ++ toString (i + k + 1))) d lm
        ∈ renderPagersFrom paginatePath p i pagers := by
  intro pagers
  induction pagers with
  | nil => intro i k hk; simp at hk
  | cons pager rest ih =>
    intro i k hk hik
    cases k with
    | zero =>
      have hi : i ≠ 0 := by omega
      rcases hsp : pager.subPages with _ | ⟨first, tail⟩
      · refine ⟨p.date, p.lastmod, ?_⟩
        simp only [renderPagersFrom, if_neg hi, hsp]
        exact List.mem_cons_self _ _
      · refine ⟨first.date, first.lastmod, ?_⟩
        simp only [renderPagersFrom, if_neg hi, hsp]
        exact List.mem_cons_self _ _
    | succ k' =>
      obtain ⟨d, lm, hmem⟩ := ih (i + 1) k' (by simpa using hk) (by omega)
      refine ⟨d, lm, ?_⟩
      by_cases hi : i = 0
      · subst hi
        simp only [renderPagersFrom, if_pos rfl]
        rw [show (0 + (k' + 1) + 1 : Nat) = 0 + 1 + k' + 1 from by omega]
        exact hmem
      · simp only [renderPagersFrom, if_neg hi]
        refine List.mem_cons_of_mem _ ?_
        rw [show (i + (k' + 1) + 1 : Nat) = i + 1 + k' + 1 from by omega]
        exact hmem

/-- C5: for every page output that carries a paginator, (a) an alias
redirect is written from the derived `<base>/<paginatePath>/1` path to the
page's own permalink; (b) every pager at index `k ≥ 1` (page number
`k + 1 ≥ 2`) is rendered into its own artifact at the derived path
`<base>/<paginatePath>/<k+1>`, and when that pager has sub-pages the
artifact inherits the date and last-modified timestamps of the pager's
first sub-page; (c) every rendered pager artifact sits at a derived path
with page number `n ≥ 2` — page 1 is never re-rendered at a derived path —
and (d) the page-1 alias is emitted exactly once. -/
theorem renderPaginator_contract (paginatePath : String) (p : PagOut) (pagers : List Pager)
    (hp : p.paginator = some pagers) :
    PagAct.alias (p.basePath ++ ("/" ++ paginatePath ++ "/1")) p.permalink
        ∈ renderPaginator paginatePath p
    ∧ (∀ (k : Nat) (hk : k < pagers.length), 1 ≤ k →
        (∃ d lm, PagAct.renderPage p.title
            (p.basePath ++ ("/" ++ paginatePath ++ "/" ++ toString (k + 1))) d lm
          ∈ renderPaginator paginatePath p)
        ∧ ∀ first rest, (pagers.get ⟨k, hk⟩).subPages = first :: rest →
            PagAct.renderPage p.title
                (p.basePath ++ ("/" ++ paginatePath ++ "/" ++ toString (k + 1)))
                first.date first.lastmod
              ∈ renderPaginator paginatePath p)
    ∧ (∀ t target d lm,
        PagAct.renderPage t target d lm ∈ renderPaginator paginatePath p →
          ∃ n, 2 ≤ n ∧ target = p.basePath ++ ("/" ++ paginatePath ++ "/" ++ toString n))
    ∧ (renderPaginator paginatePath p).count
        (PagAct.alias (p.basePath ++ ("/" ++ paginatePath ++ "/1")) p.permalink) = 1 := by
  have htrace : renderPaginator paginatePath p
      = PagAct.alias (p.basePath ++ ("/" ++ paginatePath ++ "/1")) p.permalink
          :: renderPagersFrom paginatePath p 0 pagers := by
    unfold renderPaginator createTargetPath
    rw [hp]
  refine ⟨?_, ?_, ?_, ?_⟩
  · rw [htrace]
    exact List.mem_cons_self _ _
  · intro k hk hk1
    constructor
    · obtain ⟨d, lm, hmem⟩ := renderPagersFrom_mem_any paginatePath p pagers 0 k hk
        (by omega)
      refine ⟨d, lm, ?_⟩
      rw [htrace]
      refine List.mem_cons_of_mem _ ?_
      rw [show (k + 1 : Nat) = 0 + k + 1 from by omega]
      exact hmem
    · intro first rest hsub
      have hmem := renderPagersFrom_mem paginatePath p pagers 0 k hk (by omega)
        first rest hsub
      rw [htrace]
      refine List.mem_cons_of_mem _ ?_
      rw [show (k + 1 : Nat) = 0 + k + 1 from by omega]
      exact hmem
  · intro t target d lm hmem
    rw [htrace] at hmem
    rcases List.mem_cons.mp hmem with h | h
    · exact absurd h (by simp)
    · obtain ⟨n, t2, d2, lm2, _, hn2, heq⟩ :=
        renderPagersFrom_shape paginatePath p pagers 0 _ h
      refine ⟨n, hn2, ?_⟩
      simp only [PagAct.renderPage.injEq] at heq
      exact heq.2.1
  · rw [htrace, List.count_cons_self]
    have hzero : (renderPagersFrom paginatePath p 0 pagers).count
        (PagAct.alias (p.basePath ++ ("/" ++ paginatePath ++ "/1")) p.permalink) = 0 := by
      refine List.count_eq_zero.mpr ?_
      intro hmem
      obtain ⟨n, t2, d2, lm2, _, _, heq⟩ :=
        renderPagersFrom_shape paginatePath p pagers 0 _ hmem
      exact PagAct.noConfusion heq
    rw [hzero]

/-- A two-pager page output. -/
def pagedOut : PagOut :=
  { basePath := "blog"
    permalink := "https://example.com/blog/"
    title := "Blog"
    date := 10
    lastmod := 11
    paginator := some [{ subPages := [{ date := 1, lastmod := 2 }] },
                       { subPages := [{ date := 3, lastmod := 4 }] }] }

theorem renderPaginator_contract_witness :
    PagAct.alias ("blog" ++ ("/" ++ "page" ++ "/1")) "https://example.com/blog/"
        ∈ renderPaginator "page" pagedOut
    ∧ PagAct.renderPage "Blog" ("blog" ++ ("/" ++ "page" ++ "/" ++ toString (1 + 1))) 3 4
        ∈ renderPaginator "page" pagedOut
    ∧ (renderPaginator "page" pagedOut).count
        (PagAct.alias ("blog" ++ ("/" ++ "page" ++ "/1")) "https://example.com/blog/") = 1 :=
  ⟨(renderPaginator_contract "page" pagedOut _ rfl).1,
   ((renderPaginator_contract "page" pagedOut _ rfl).2.1 1 (by decide) (by decide)).2
      { date := 3, lastmod := 4 } [] rfl,
   (renderPaginator_contract "page" pagedOut _ rfl).2.2.2⟩

end Pag

namespace RSS

/-- The site-level inputs of `renderRSS`: whether the RSS page kind is
enabled (`s.isEnabled(kindRSS)`), the `disableRSS` configuration flag, and
the configured `rssLimit` (a Go `int`, possibly negative). -/
structure RSSSite where
  rssEnabled : Bool
  disableRSS : Bool
  rssLimit : Int
deriving DecidableEq, Repr

/-- The page output handed to `renderRSS`: its title, its page list
(pages named by their paths), and the outcomes of the two collaborators it
calls — layout resolution and target-path computation (their
implementations are outside the snapshot, so they enter as oracles). -/
structure RSSPage where
  title : String
  pages : List String
  layoutsResult : Except String (List String)
  targetPathResult : Except String String
deriving Repr

/-- The outcome of `renderRSS`: a silent skip (`return nil` without
rendering), or a rendered feed with the page list actually used. -/
inductive RSSRes
  | skip
  | rendered (title target : String) (pages : List String) (layouts : List String)
deriving DecidableEq, Repr

/-- `(*Site).renderRSS` from the rendering file: a disabled RSS kind or the
`disableRSS` flag skips silently; otherwise a non-negative `rssLimit`
truncates the page list to its first `rssLimit` entries when the list is
longer, the layouts and the target path are resolved (either failure is
returned as an error), and the feed is rendered. -/
def renderRSS (s : RSSSite) (p : RSSPage) : Except String RSSRes :=
  if !s.rssEnabled then Except.ok RSSRes.skip
  else if s.disableRSS then Except.ok RSSRes.skip
  else
    let pages :=
      if 0 ≤ s.rssLimit ∧ (p.pages.length : Int) > s.rssLimit then p.pages.take s.rssLimit.toNat
      else p.pages
    match p.layoutsResult with
    | Except.error e => Except.error e
    | Except.ok layouts =>
      match p.targetPathResult with
      | Except.error e => Except.error e
      | Except.ok target => Except.ok (RSSRes.rendered p.title target pages layouts)

/-- C7: `renderRSS` returns nil without rendering anything whenever the RSS
kind is disabled for the site or `disableRSS` is set — the skip is an `ok`,
never an error; otherwise, when `rssLimit` is non-negative and the page
list is longer than `rssLimit`, the feed is rendered with the list
truncated to its first `rssLimit` entries. -/
theorem renderRSS_skip_and_limit (s : RSSSite) (p : RSSPage) :
    (s.rssEnabled = false ∨ s.disableRSS = true → renderRSS s p = Except.ok RSSRes.skip)
    ∧ (s.rssEnabled = true → s.disableRSS = false →
        0 ≤ s.rssLimit → (p.pages.length : Int) > s.rssLimit →
        ∀ layouts target, p.layoutsResult = Except.ok layouts →
          p.targetPathResult = Except.ok target →
          renderRSS s p
            = Except.ok (RSSRes.rendered p.title target (p.pages.take s.rssLimit.toNat)
                layouts)) := by
  constructor
  · rintro (h | h)
    · unfold renderRSS
      rw [if_pos (by simp [h])]
    · unfold renderRSS
      by_cases he : s.rssEnabled = true
      · rw [if_neg (by simp [he]), if_pos h]
      · rw [if_pos (by simpa using he)]
  · intro hen hdis hlim hlen layouts target hlay htarget
    unfold renderRSS
    rw [if_neg (by simp [hen]), if_neg (by simp [hdis])]
    simp only [hlay, htarget]
    rw [if_pos ⟨hlim, hlen⟩]

/-- A site with RSS enabled and a feed limit of 2. -/
def rssSiteLimited : RSSSite :=
  { rssEnabled := true, disableRSS := false, rssLimit := 2 }

/-- A site with the RSS feature disabled. -/
def rssSiteDisabled : RSSSite :=
  { rssEnabled := true, disableRSS := true, rssLimit := -1 }

/-- A three-page feed page output with successful collaborators. -/
def rssPageThree : RSSPage :=
  { title := "Feed"
    pages := ["a", "b", "c"]
    layoutsResult := Except.ok ["rss.xml"]
    targetPathResult := Except.ok "index.xml" }

theorem renderRSS_skip_and_limit_witness :
    renderRSS rssSiteDisabled rssPageThree = Except.ok RSSRes.skip
    ∧ renderRSS rssSiteLimited rssPageThree
        = Except.ok (RSSRes.rendered rssPageThree.title "index.xml"
            (rssPageThree.pages.take rssSiteLimited.rssLimit.toNat) ["rss.xml"]) :=
  ⟨(renderRSS_skip_and_limit rssSiteDisabled rssPageThree).1 (Or.inr rfl),
   (renderRSS_skip_and_limit rssSiteLimited rssPageThree).2 rfl rfl (by decide) (by decide)
     ["rss.xml"] "index.xml" rfl rfl⟩

end RSS

namespace Path

/-- The `Page` fields read by `TargetPath`. -/
structure PageT where
  url : String
  slug : String
  extension : String
  dir : String
  fileName : String
deriving DecidableEq, Repr

/-- Modelled from the spec: `replaceExtension` (its helper source is not in
the snapshot) — extension substitution: the file name with everything after
its last dot replaced by the new extension (appended when no dot exists). -/
def replaceExtension (s newExt : String) : String :=
  let rcs := s.data.reverse
  if rcs.any (fun c => c = '.') then
    String.mk ((rcs.dropWhile (fun c => c ≠ '.')).drop 1).reverse ++ "." ++ newExt
  else s ++ "." ++ newExt

/-- `(*Page).TargetPath` from the page file.  The per-section permalink
lookup `p.Site.Permalinks[p.Section]` and `override.Expand(p)` are outside
the snapshot; they enter as the already-looked-up outcome: `none` when no
pattern matches the page's section, `some none` when the pattern expansion
fails, `some (some s)` when it expands to `s`. -/
def TargetPath (override : Option (Option String)) (p : PageT) : String :=
  let u := GoPath.goTrim p.url
  if u.utf8ByteSize > 2 then
    (if GoPath.goEndsWith u "/" then u ++ "index.html" else u)
  else
    match override with
    | some (some expanded) =>
        if GoPath.goEndsWith expanded "/" then expanded ++ "index.html" else expanded
    | _ =>
        let outfile :=
          if (GoPath.goTrim p.slug).utf8ByteSize > 0 then
            GoPath.goTrim p.slug ++ "." ++ p.extension
          else replaceExtension (GoPath.goTrim (GoPath.splitBase p.fileName)) p.extension
        GoPath.pathJoin [p.dir, GoPath.goTrim outfile]

/-- The claim's reading of the precedence: rule (1) applies whenever an
explicit URL is *set* on the page (non-empty), rule (3) whenever the slug
is non-empty. -/
def claimTargetPath (override : Option (Option String)) (p : PageT) : String :=
  if p.url ≠ "" then
    (if GoPath.goEndsWith p.url "/" then p.url ++ "index.html" else p.url)
  else
    match override with
    | some (some expanded) =>
        if GoPath.goEndsWith expanded "/" then expanded ++ "index.html" else expanded
    | _ =>
      if p.slug ≠ "" then GoPath.pathJoin [p.dir, p.slug ++ "." ++ p.extension]
      else GoPath.pathJoin [p.dir, replaceExtension (GoPath.splitBase p.fileName) p.extension]

/-- A page with a short (two-byte) explicit URL and a slug. -/
def shortUrlPage : PageT :=
  { url := "ab", slug := "s", extension := "html", dir := "d", fileName := "posts/x.md" }

/-- C8, counterexample to the claim as stated: an explicit URL is used only
when its trimmed length exceeds 2 bytes; for the two-byte URL `"ab"` the
code falls through to the slug rule, while the claim's precedence (1) would
use the URL as-is. -/
theorem targetPath_counterexample :
    shortUrlPage.url ≠ ""
    ∧ TargetPath none shortUrlPage = "d/s.html"
    ∧ claimTargetPath none shortUrlPage = "ab"
    ∧ TargetPath none shortUrlPage ≠ claimTargetPath none shortUrlPage := by
  refine ⟨by decide, by decide, by decide, by decide⟩

/-- Rule (1), amended: an explicit URL whose trimmed form is longer than 2
bytes is used as-is, a trailing slash gaining an implicit `index.html`. -/
def ruleUrl (p : PageT) : Option String :=
  let u := GoPath.goTrim p.url
  if u.utf8ByteSize > 2 then
    some (if GoPath.goEndsWith u "/" then u ++ "index.html" else u)
  else none

/-- Rule (2): a per-section permalink pattern that matches and expands
without error is used, a trailing slash gaining an implicit `index.html`. -/
def rulePattern (override : Option (Option String)) : Option String :=
  match override with
  | some (some expanded) =>
      some (if GoPath.goEndsWith expanded "/" then expanded ++ "index.html" else expanded)
  | _ => none

/-- Rule (3), amended: a slug that is non-blank after trimming gives
slug + "." + extension joined under the page's directory. -/
def ruleSlug (p : PageT) : Option String :=
  if (GoPath.goTrim p.slug).utf8ByteSize > 0 then
    some (GoPath.pathJoin [p.dir, GoPath.goTrim (GoPath.goTrim p.slug ++ "." ++ p.extension)])
  else none

/-- Rule (4): the file's base name with its extension substituted, joined
under the page's directory. -/
def ruleFileName (p : PageT) : String :=
  GoPath.pathJoin
    [p.dir, GoPath.goTrim (replaceExtension (GoPath.goTrim (GoPath.splitBase p.fileName))
      p.extension)]

/-- The amended precedence, highest rule first. -/
def amendedTargetPath (override : Option (Option String)) (p : PageT) : String :=
  ((((ruleUrl p).orElse (fun _ => rulePattern override)).orElse
      (fun _ => ruleSlug p))).getD (ruleFileName p)

/-- C8 (amended): `TargetPath` resolves the output path with the claimed
precedence, where rule (1) demands a trimmed URL longer than 2 bytes and
rule (3) a slug that is non-blank after trimming; trailing-slash results of
rules (1) and (2) gain an implicit `index.html`. -/
theorem targetPath_precedence (override : Option (Option String)) (p : PageT) :
    TargetPath override p = amendedTargetPath override p := by
  unfold TargetPath amendedTargetPath ruleUrl rulePattern ruleSlug ruleFileName
  by_cases hu : (GoPath.goTrim p.url).utf8ByteSize > 2
  · simp [hu, Option.orElse]
  · by_cases hs : (GoPath.goTrim p.slug).utf8ByteSize > 0
    · cases override with
      | none => simp [hu, hs, Option.orElse]
      | some oo =>
        cases oo with
        | none => simp [hu, hs, Option.orElse]
        | some e => simp [hu, hs, Option.orElse]
    · cases override with
      | none => simp [hu, hs, Option.orElse]
      | some oo =>
        cases oo with
        | none => simp [hu, hs, Option.orElse]
        | some e => simp [hu, hs, Option.orElse]

end Path
